import Mathlib

/-!
Verification of the Budgeted Fitted-Q core (`rl_agents/agents/budgeted_ftq/bftq.py`)
via a shallow embedding.  Machine floats are modelled by `ℚ`; tensors by `List`s;
Python exceptions by `Except PyErr`.  External collaborators that live outside the
excerpt (`budgeted_utils.compute_convex_hull_from_values`, `optimal_mixture`,
`utils.near_split`, the value network's forward pass, losses and optimizers) are
modelled from the specification's description of them and clearly marked.
-/

/-- Python exceptions relevant to the embedded code paths (`parseError` stands
for the SyntaxError/NameError class raised by `eval` on a malformed
expression). -/
inductive PyErr where
  | typeError
  | parseError
  | attributeError
  | zeroDivisionError
  deriving DecidableEq, Repr

/-- An evaluation point of the frontier: (budget, action, reward-value, cost-value),
as produced per (budget-grid-value, action) pair for one state. -/
structure EvalPoint where
  beta : ℚ
  action : ℕ
  qr : ℚ
  qc : ℚ
  deriving DecidableEq, Repr

/-- A two-point stochastic mixture {inf, sup, probability_sup}, the result of the
Mixture Selector (`optimal_mixture`). Field names follow the source's uses
`mix.inf.qr`, `mix.sup.qr`, `mix.probability_sup`. -/
structure Mixture where
  inf : EvalPoint
  sup : EvalPoint
  probability_sup : ℚ
  deriving DecidableEq, Repr

/-- A dynamically-typed Python value, needed to embed the untyped call
`optimal_mixture(hulls[i], beta.detach().item())` in
`compute_all_optimal_mixtures`, whose two argument slots receive values of
different runtime types depending on the caller. -/
inductive PyObj where
  | scalar (q : ℚ)
  | hullObj (h : List EvalPoint)
  deriving DecidableEq, Repr

/-- `x.detach().item()` : succeeds on a scalar tensor, raises `AttributeError`
on a hull (a plain sequence of evaluation points has no `detach`). -/
def detachItem : PyObj → Except PyErr ℚ
  | PyObj.scalar q => Except.ok q
  | PyObj.hullObj _ => Except.error PyErr.attributeError

/-- The configuration surface used by the embedded code paths (§6 of the spec). -/
structure BFTQConfig where
  gamma : ℚ
  gamma_c : ℚ
  clamp_Qc : Option (ℚ × ℚ)
  max_ftq_epochs : ℕ
  delta_stop : ℚ
  max_nn_epoch : ℕ
  reset_network_each_epoch : Bool
  split_batches : ℕ
  weights_losses : ℚ × ℚ
  n_actions : ℕ
  betas_for_discretisation : List ℚ
  betas_for_duplication : List ℚ

/-- `torch.clamp(x, min := lo, max := hi)` for one scalar. -/
def clampQ (lo hi x : ℚ) : ℚ := min (max x lo) hi

/-- Apply the optional cost clamp `config["clamp_Qc"]` to one scalar target. -/
def applyClamp : Option (ℚ × ℚ) → ℚ → ℚ
  | none, x => x
  | some (lo, hi), x => clampQ lo hi x

/-- Modelled from the spec: `near_split` (helper from `rl_agents.agents.utils`,
outside this excerpt) splits `x` items into `numBins` near-equal bin sizes;
`divmod(x, 0)` raises `ZeroDivisionError`. -/
def near_split (x numBins : ℕ) : Except PyErr (List ℕ) :=
  if numBins = 0 then Except.error PyErr.zeroDivisionError
  else Except.ok (List.replicate (x % numBins) (x / numBins + 1) ++
                  List.replicate (numBins - x % numBins) (x / numBins))

/-- Python slice `xs[a:b]` for `0 ≤ a, b` (out-of-range indices are clamped). -/
def pySlice (xs : List α) (a b : ℕ) : List α := (xs.take b).drop a

/-- Sum of the first `m` sizes, i.e. Python's `sum(batch_sizes[:m])`. -/
def sumTake (sizes : List ℕ) (m : ℕ) : ℕ := (sizes.take m).sum

/-- Ordered insertion by ascending cost-value; on equal costs the higher-reward
point is placed first, so that the later de-duplication keeps the maximum-reward
point at each cost. -/
def insertByCost (p : EvalPoint) : List EvalPoint → List EvalPoint
  | [] => [p]
  | q :: rest =>
    if p.qc < q.qc ∨ (p.qc = q.qc ∧ p.qr ≥ q.qr) then p :: q :: rest
    else q :: insertByCost p rest

/-- Sort evaluation points by ascending cost-value. -/
def sortByCost (ps : List EvalPoint) : List EvalPoint :=
  ps.foldr insertByCost []

/-- Sweep a cost-sorted point list, retaining only non-dominated points:
a point survives iff its reward-value strictly exceeds that of every cheaper
surviving point (ties in cost collapse to the maximum-reward point). -/
def paretoSweep (best : Option ℚ) : List EvalPoint → List EvalPoint
  | [] => []
  | p :: rest =>
    match best with
    | none => p :: paretoSweep (some p.qr) rest
    | some m => if m < p.qr then p :: paretoSweep (some p.qr) rest
                else paretoSweep (some m) rest

/-- Build the evaluation points for one state from its `n_beta` rows of network
outputs: row `j` holds, for budget `betas[j]`, the reward-values at positions
`0 .. n_actions-1` and the cost-values at positions `n_actions .. 2*n_actions-1`
(the layout used by `_compute_loss`'s two `gather` calls). -/
def buildPoints (n_actions : ℕ) (betas : List ℚ) (q_rows : List (List ℚ)) :
    List EvalPoint :=
  (List.range betas.length).flatMap (fun j =>
    (List.range n_actions).map (fun a =>
      { beta := betas.getD j 0
        action := a
        qr := (q_rows.getD j []).getD a 0
        qc := (q_rows.getD j []).getD (a + n_actions) 0 : EvalPoint }))

/-- Modelled from the spec: `compute_convex_hull_from_values` (Frontier Builder,
`budgeted_utils`, outside this excerpt, §4.3): sort the state's evaluation
points by ascending cost-value, drop dominated points, collapse duplicate
costs keeping the maximum-reward point. -/
def compute_convex_hull_from_values (n_actions : ℕ) (q_rows : List (List ℚ))
    (betas : List ℚ) : List EvalPoint :=
  paretoSweep none (sortByCost (buildPoints n_actions betas q_rows))

/-- Modelled from the spec: `optimal_mixture` (Mixture Selector,
`budgeted_utils`, outside this excerpt, §4.4): walk consecutive frontier pairs
to find `lower.cost ≤ beta ≤ upper.cost`. -/
def mixtureFromPair (beta : ℚ) (low : EvalPoint) : List EvalPoint → Mixture
  | [] => { inf := low, sup := low, probability_sup := 0 }
  | up :: rest =>
    if beta ≤ up.qc then
      if up.qc = low.qc then { inf := low, sup := up, probability_sup := 0 }
      else { inf := low, sup := up,
             probability_sup := (beta - low.qc) / (up.qc - low.qc) }
    else mixtureFromPair beta up rest

/-- Modelled from the spec: `optimal_mixture` boundary cases (§4.4): a budget
below the cheapest vertex yields that vertex deterministically; a budget above
the most expensive vertex yields that vertex deterministically; otherwise the
unique interior two-point mixture.  An empty frontier is a precondition
violation (§7); the total model returns a degenerate all-zero mixture there. -/
def optimal_mixture (hull : List EvalPoint) (beta : ℚ) : Mixture :=
  match hull with
  | [] => { inf := ⟨0, 0, 0, 0⟩, sup := ⟨0, 0, 0, 0⟩, probability_sup := 0 }
  | p :: rest =>
    if beta ≤ p.qc then { inf := p, sup := p, probability_sup := 0 }
    else
      let last := (p :: rest).getLast (by simp)
      if last.qc ≤ beta then { inf := last, sup := last, probability_sup := 0 }
      else mixtureFromPair beta p rest

/-- The cross-product input batch built at the top of `compute_next_values`
(lines 189-193): each next state paired with every discretised budget,
state-major, matching `ss.repeat/view` and `bb.repeat`. -/
def crossStateBeta (betas : List ℚ) (next_states : List ℚ) : List (ℚ × ℚ) :=
  next_states.flatMap (fun s => betas.map (fun b => (s, b)))

/-- `compute_next_values` (lines 182-202): build the state × budget cross
product, split it into `split_batches` minibatches via `near_split`, run the
value network `f` on each minibatch, and concatenate the outputs.  The network
forward pass is an external capability mapping each input row to its
per-action value row. -/
def compute_next_values (cfg : BFTQConfig) (f : ℚ × ℚ → List ℚ)
    (next_states : List ℚ) : Except PyErr (List (List ℚ)) := do
  let sb := crossStateBeta cfg.betas_for_discretisation next_states
  let batch_sizes ← near_split sb.length cfg.split_batches
  Except.ok ((List.range cfg.split_batches).flatMap (fun minibatch =>
    (pySlice sb (sumTake batch_sizes minibatch)
               (sumTake batch_sizes (minibatch + 1))).map f))

/-- `compute_all_hulls` (lines 204-218): slice the flat q-value array into one
`n_beta`-row block per state and build each state's hull. -/
def compute_all_hulls (cfg : BFTQConfig) (q_values : List (List ℚ))
    (states_count : ℕ) : List (List EvalPoint) :=
  let n_beta := cfg.betas_for_discretisation.length
  (List.range states_count).map (fun state =>
    compute_convex_hull_from_values cfg.n_actions
      (pySlice q_values (state * n_beta) ((state + 1) * n_beta))
      cfg.betas_for_discretisation)

/-- `compute_all_optimal_mixtures` (lines 220-227), exactly as defined in the
source: parameters are named `(b_batch, hulls)` and the body builds, for each
`i`, the argument pair `(hulls[i], b_batch[i].detach().item())` handed to
`optimal_mixture`.  The first slot must hold a hull and the second a scalar
budget; anything else is a runtime type error. -/
def compute_all_optimal_mixtures (b_batch hulls : List PyObj) :
    Except PyErr (List Mixture) := do
  let args ← (List.range b_batch.length).mapM (fun i => do
    let beta ← detachItem (b_batch.getD i (PyObj.scalar 0))
    Except.ok (hulls.getD i (PyObj.scalar 0), beta))
  args.mapM (fun hb =>
    match hb.1 with
    | PyObj.hullObj h => Except.ok (optimal_mixture h hb.2)
    | PyObj.scalar _ => Except.error PyErr.typeError)

/-- Mask selection `xs[1 - terminals]`: keep the entries whose terminal flag is
false, in order. -/
def selectNonTerminal (xs : List α) (terminals : List Bool) : List α :=
  (xs.zip terminals).filterMap (fun p => if p.2 then none else some p.1)

/-- Masked scatter `out[1 - terminals] = vals` over a zero-initialised vector:
terminal positions stay 0, non-terminal positions consume `vals` in order. -/
def scatterNonTerminal (terminals : List Bool) (vals : List ℚ) : List ℚ :=
  match terminals with
  | [] => []
  | t :: ts =>
    if t then 0 :: scatterNonTerminal ts vals
    else
      match vals with
      | v :: vs => v :: scatterNonTerminal ts vs
      | [] => 0 :: scatterNonTerminal ts []

/-- `constrained_next_values` (lines 140-180): zero bootstrap in epoch 0;
otherwise select non-terminal states and budgets, forward-evaluate, build
hulls, call `compute_all_optimal_mixtures(hulls, betas_nf)` — note the call
site's argument order against the definition's `(b_batch, hulls)` parameter
order — then scatter each mixture's probability-weighted (qr, qc) back into
the zero vectors at the non-terminal positions. -/
def constrained_next_values (cfg : BFTQConfig) (f : ℚ × ℚ → List ℚ)
    (epoch : ℕ) (next_states : List ℚ) (betas : List ℚ)
    (terminals : List Bool) : Except PyErr (List ℚ × List ℚ) :=
  let zeros := List.replicate next_states.length (0 : ℚ)
  if epoch = 0 then Except.ok (zeros, zeros)
  else do
    let next_states_nf := selectNonTerminal next_states terminals
    let betas_nf := selectNonTerminal betas terminals
    let q_values ← compute_next_values cfg f next_states_nf
    let hulls := compute_all_hulls cfg q_values next_states_nf.length
    let mixtures ← compute_all_optimal_mixtures
      (hulls.map PyObj.hullObj) (betas_nf.map PyObj.scalar)
    let next_rewards_nf := mixtures.map (fun mix =>
      (1 - mix.probability_sup) * mix.inf.qr + mix.probability_sup * mix.sup.qr)
    let next_costs_nf := mixtures.map (fun mix =>
      (1 - mix.probability_sup) * mix.inf.qc + mix.probability_sup * mix.sup.qc)
    Except.ok (scatterNonTerminal terminals next_rewards_nf,
               scatterNonTerminal terminals next_costs_nf)

/-- `compute_targets` (lines 119-138): bootstrap the next values, form
`reward + gamma * next_reward` and `cost + gamma_c * next_cost`, then apply the
optional cost clamp to the whole cost-target batch. -/
def compute_targets (cfg : BFTQConfig) (f : ℚ × ℚ → List ℚ) (epoch : ℕ)
    (rewards costs next_states betas : List ℚ) (terminals : List Bool) :
    Except PyErr (List ℚ × List ℚ) := do
  let nexts ← constrained_next_values cfg f epoch next_states betas terminals
  let target_r := List.zipWith (fun r nr => r + cfg.gamma * nr) rewards nexts.1
  let target_c := List.zipWith (fun c nc => c + cfg.gamma_c * nc) costs nexts.2
  let target_c :=
    match cfg.clamp_Qc with
    | some (lo, hi) => target_c.map (clampQ lo hi)
    | none => target_c
  Except.ok (target_r, target_c)

/-- One stored replay-memory transition (`TransitionBFTQ`), scalars as `ℚ`.
The budget is `Option ℚ` because `push`'s `beta` argument defaults to `None`. -/
structure StoredTransition where
  state : ℚ
  action : ℕ
  reward : ℚ
  next_state : ℚ
  terminal : Bool
  cost : ℚ
  beta : Option ℚ
  deriving DecidableEq, Repr

/-- Python truthiness of `push`'s `beta` argument: `None` and `0.0` are falsy,
any other number is truthy. -/
def betaTruthy : Option ℚ → Bool
  | none => false
  | some b => b ≠ 0

/-- `push` (lines 43-64): when the duplication list is truthy (non-empty), one
transition is stored per multiplier `beta_d`, with budget `beta_d * beta` if the
supplied `beta` is truthy and the raw multiplier `beta_d` otherwise; when the
duplication list is empty, the single transition is stored with the raw `beta`.
Returns the memory with the new transitions appended. -/
def push (cfg : BFTQConfig) (memory : List StoredTransition)
    (state : ℚ) (action : ℕ) (reward : ℚ) (next_state : ℚ) (terminal : Bool)
    (cost : ℚ) (beta : Option ℚ) : List StoredTransition :=
  if cfg.betas_for_duplication ≠ [] then
    memory ++ cfg.betas_for_duplication.map (fun beta_d =>
      { state, action, reward, next_state, terminal, cost,
        beta := some (if betaTruthy beta then beta_d * (beta.getD 0) else beta_d) :
        StoredTransition })
  else
    memory ++ [{ state, action, reward, next_state, terminal, cost, beta :
                   StoredTransition }]

/-- `run` (lines 66-78), with the per-epoch body abstracted: execute up to
`fuel` epochs of `step`, breaking as soon as an epoch's residual is strictly
below `stop`.  Returns (final state, number of executed epochs, whether the
loop broke early on the residual test). -/
def runFrom (stop : ℚ) (step : S → S × ℚ) : ℕ → S → S × ℕ × Bool
  | 0, s => (s, 0, false)
  | n + 1, s =>
    let sd := step s
    if sd.2 < stop then (sd.1, 1, true)
    else
      let rec_result := runFrom stop step n sd.1
      (rec_result.1, rec_result.2.1 + 1, rec_result.2.2)

/-- `run` (lines 66-78): loop `_epoch` for at most `max_ftq_epochs` epochs,
stop early when `delta < delta_stop`, and return the value network held by the
final state (`return self._value_network`). -/
def run (cfg : BFTQConfig) (step : S → S × ℚ) (value_network : S → N)
    (s0 : S) : N × ℕ × Bool :=
  let result := runFrom cfg.delta_stop step cfg.max_ftq_epochs s0
  (value_network result.1, result.2.1, result.2.2)

/-- The state reached after `k` full epochs, ignoring residuals. -/
def stepState (step : S → S × ℚ) (s : S) : S := (step s).1

/-- The residual produced by epoch `j` along the deterministic trajectory from
`s0` (epochs are numbered from 0). -/
def trajDelta (step : S → S × ℚ) (s0 : S) (j : ℕ) : ℚ :=
  (step ((stepState step)^[j] s0)).2

/-- `_compute_loss` (lines 256-272): forward the state-beta batch, gather `qr`
at the action indices and `qc` at `action + n_actions`, and combine the two
externally supplied losses as `w_c * loss_qc + w_r * loss_qr` with
`(w_r, w_c) = weights_losses`. -/
def _compute_loss (cfg : BFTQConfig) (lossR lossC : List ℚ → List ℚ → ℚ)
    (f : ℚ × ℚ → List ℚ) (states_betas : List (ℚ × ℚ)) (actions : List ℕ)
    (target_r target_c : List ℚ) : ℚ :=
  let values := states_betas.map f
  let qr := (values.zip actions).map (fun ra => ra.1.getD ra.2 0)
  let qc := (values.zip actions).map (fun ra => ra.1.getD (ra.2 + cfg.n_actions) 0)
  let loss_qc := lossC qc target_c
  let loss_qr := lossR qr target_r
  cfg.weights_losses.2 * loss_qc + cfg.weights_losses.1 * loss_qr

/-- `_gradient_step` (lines 274-281): compute the loss at the current
parameters, then apply one optimizer update (zero_grad / backward / per-param
gradient clamp / step, an external capability modelled by `optStep`); returns
the updated parameters and the loss value. -/
def _gradient_step (cfg : BFTQConfig) (lossR lossC : List ℚ → List ℚ → ℚ)
    (forward : P → ℚ × ℚ → List ℚ) (optStep : P → P) (θ : P)
    (states_betas : List (ℚ × ℚ)) (actions : List ℕ)
    (target_r target_c : List ℚ) : P × ℚ :=
  (optStep θ,
   _compute_loss cfg lossR lossC (forward θ) states_betas actions target_r target_c)

/-- `_fit` (lines 229-254): first evaluate the Bellman residual `delta` of the
fresh targets at the parameters as they stand, then optionally reset the
network, then run `max_nn_epoch` gradient steps, and return `delta`. -/
def _fit (cfg : BFTQConfig) (lossR lossC : List ℚ → List ℚ → ℚ)
    (forward : P → ℚ × ℚ → List ℚ) (optStep : P → P) (resetFn : P → P) (θ : P)
    (states_betas : List (ℚ × ℚ)) (actions : List ℕ)
    (target_r target_c : List ℚ) : P × ℚ :=
  let delta := _compute_loss cfg lossR lossC (forward θ) states_betas actions
    target_r target_c
  let θ1 := if cfg.reset_network_each_epoch then resetFn θ else θ
  let θ2 := (fun p =>
    (_gradient_step cfg lossR lossC forward optStep p states_betas actions
      target_r target_c).1)^[cfg.max_nn_epoch] θ1
  (θ2, delta)

/-- A configuration value for the two `betas_*` options, as `__init__` can
receive it.  A Python string is modelled by the outcome of `eval`-ing it
(`evalsTo (some xs)`: the expression evaluates to the number list `xs`;
`evalsTo none`: evaluation raises, e.g. an empty or non-numeric expression),
since `eval`'s full semantics is external to this excerpt.  `numList` is an
already-built Python list object; `pyNone` is `None`. -/
inductive ConfVal where
  | evalsTo (result : Option (List ℚ))
  | numList (xs : List ℚ)
  | pyNone
  deriving DecidableEq, Repr

/-- Python's `eval` builtin on a configuration value: evaluates strings
(raising SyntaxError-class errors when the expression is malformed) and
raises `TypeError` on non-string arguments such as lists or `None`. -/
def pyEval : ConfVal → Except PyErr ConfVal
  | ConfVal.evalsTo (some xs) => Except.ok (ConfVal.numList xs)
  | ConfVal.evalsTo none => Except.error PyErr.parseError
  | ConfVal.numList _ => Except.error PyErr.typeError
  | ConfVal.pyNone => Except.error PyErr.typeError

/-- The `try: eval(...) except TypeError:` pattern of `__init__` (lines 21-28):
a `TypeError` falls back to the raw configuration value, unvalidated; any other
evaluation error escapes and aborts construction. -/
def loadBetas (v : ConfVal) : Except PyErr ConfVal :=
  match pyEval v with
  | Except.ok r => Except.ok r
  | Except.error PyErr.typeError => Except.ok v
  | Except.error e => Except.error e

/-- `BudgetedFittedQ.__init__` (lines 17-41), restricted to the configuration
loading of the two budget lists — the only validation-relevant steps; the rest
of the constructor wires up external collaborators.  Returns the stored
`(betas_for_duplication, betas_for_discretisation)` pair. -/
def bftqInit (dup disc : ConfVal) : Except PyErr (ConfVal × ConfVal) := do
  let d ← loadBetas dup
  let g ← loadBetas disc
  Except.ok (d, g)

/-- The mutable per-object state relevant to one epoch: the value network's
learned parameters and its normalization statistics (both live inside
`self._value_network`; `set_normalization_params` writes only the latter). -/
structure NetState (P N : Type) where
  params : P
  normalization : N

/-- The target-computation phase of `_epoch` (lines 89-90): `_zip_batch`
pushes fresh normalization statistics into the value network, then
`compute_targets` is invoked with the network's forward function at the
current parameters.  Returns the updated object state and the targets. -/
def epochTargetsPhase (cfg : BFTQConfig) (stats : List (ℚ × ℚ) → N)
    (forward : P → N → ℚ × ℚ → List ℚ) (epoch : ℕ) (s : NetState P N)
    (states_betas : List (ℚ × ℚ)) (rewards costs next_states betas : List ℚ)
    (terminals : List Bool) :
    Except PyErr (NetState P N × (List ℚ × List ℚ)) := do
  let s1 : NetState P N := { s with normalization := stats states_betas }
  let targets ← compute_targets cfg (forward s1.params s1.normalization) epoch
    rewards costs next_states betas terminals
  Except.ok (s1, targets)

/-! ### Concrete example objects used by the closed theorems and witnesses -/

/-- A small concrete configuration. -/
def exampleConfig : BFTQConfig :=
  { gamma := 9/10, gamma_c := 8/10, clamp_Qc := none, max_ftq_epochs := 3,
    delta_stop := 1/100, max_nn_epoch := 2, reset_network_each_epoch := true,
    split_batches := 1, weights_losses := (1, 1), n_actions := 2,
    betas_for_discretisation := [0, 1/2, 1], betas_for_duplication := [] }

/-- `exampleConfig` with the optional cost clamp set to `[0, 1]`. -/
def exampleConfigClamped : BFTQConfig := { exampleConfig with clamp_Qc := some (0, 1) }

/-- A concrete deterministic value-network forward function. -/
def exampleForward : ℚ × ℚ → List ℚ :=
  fun sb => [sb.1 + sb.2, sb.1 * sb.2, sb.2, sb.1]

/-- A concrete one-segment frontier. -/
def exampleHull : List EvalPoint := [⟨0, 0, 1, 0⟩, ⟨1, 1, 3, 1⟩]

/-- A concrete per-epoch step for exercising `run`: epoch at state `s` moves to
`s + 1` and reports residual `1 - s`. -/
def exampleEpochStep : ℚ → ℚ × ℚ := fun s => (s + 1, 1 - s)

/-- `exampleConfig` with a residual threshold of `1/2`, under which
`exampleEpochStep` from state 0 stops early after its second epoch. -/
def exampleRunConfig : BFTQConfig := { exampleConfig with delta_stop := 1/2 }

/-- `exampleConfig` with a non-empty duplication list. -/
def exampleDupConfig : BFTQConfig :=
  { exampleConfig with betas_for_duplication := [1/4, 1/2] }

/-- `exampleConfig` with three forward minibatches. -/
def exampleSplitConfig : BFTQConfig := { exampleConfig with split_batches := 3 }

/-- A concrete parameterised network forward function (trivial normalization). -/
def exampleNetForward : ℚ → Unit → ℚ × ℚ → List ℚ := fun _ _ => exampleForward

/-- Trivial normalization statistics. -/
def exampleStats : List (ℚ × ℚ) → Unit := fun _ => ()

/-- A concrete network state with parameters `7`. -/
def exampleNetState : NetState ℚ Unit := ⟨7, ()⟩

/-- The output of the target phase on the concrete epoch-0 batch below. -/
def exampleOut : NetState ℚ Unit × (List ℚ × List ℚ) := (⟨7, ()⟩, ([2], [5]))

/-- A concrete loss function. -/
def exampleLoss : List ℚ → List ℚ → ℚ := fun _ _ => 0

/-- A concrete optimizer update. -/
def exampleOptStep : ℚ → ℚ := fun p => p + 1

/-- A concrete parameter reset. -/
def exampleReset : ℚ → ℚ := fun _ => 0

/-- A concrete parameterised forward function (no normalization argument). -/
def exampleForwardParam : ℚ → ℚ × ℚ → List ℚ := fun _ => exampleForward

/-! ### Theorems -/

/-- C1: the claim says `constrained_next_values` hands the Mixture Selector each
state's hull in the frontier slot and its stored budget in the budget slot.  In
the source the call site (line 168) passes `(hulls, betas_nf)` while the
definition (line 220) binds `(b_batch, hulls)`, so the budget lands in the
frontier slot and `.detach().item()` is invoked on the hull, raising
`AttributeError`: the backup crashes on any non-terminal transition after the
first epoch.  With the slots used the other way round the call succeeds. -/
theorem mixture_selector_arguments_swapped :
    constrained_next_values exampleConfig exampleForward 1 [1] [1/2] [false]
      = Except.error PyErr.attributeError ∧
    compute_all_optimal_mixtures [PyObj.hullObj exampleHull] [PyObj.scalar (1/2)]
      = Except.error PyErr.attributeError ∧
    compute_all_optimal_mixtures [PyObj.scalar (1/2)] [PyObj.hullObj exampleHull]
      = Except.ok [optimal_mixture exampleHull (1/2)] :=
  ⟨rfl, rfl, rfl⟩

/-- C3: the claim says a non-terminal transition in epoch ≥ 1 gets
`target_reward = reward + gamma * ((1-p) * inf.qr + p * sup.qr)` (and the
analogous cost target).  Instead, `compute_targets` raises `AttributeError`
on every such transition, because `compute_all_optimal_mixtures` receives the
hulls in its budget slot (`b_batch`) and tries `.detach().item()` on them, so
the claimed bootstrap values are never produced. -/
theorem nonterminal_targets_raise_attribute_error :
    compute_targets exampleConfig exampleForward 1 [2] [3] [1] [1/2] [false]
      = Except.error PyErr.attributeError :=
  rfl

/-- C2 counterexample: with the cost clamp configured to `[0, 1]`, a terminal
transition with stored reward 2 and stored cost 5 gets `target_cost = 1 ≠ 5`:
the clamp of line 136 is applied to the whole batch, terminal transitions
included, so `target_cost` is not "the stored cost exactly" for every
configuration. -/
theorem terminal_cost_target_clamped_counterexample :
    compute_targets exampleConfigClamped exampleForward 0 [2] [5] [0] [0] [true]
      = Except.ok ([2], [1]) ∧ (1 : ℚ) ≠ 5 := by
  constructor
  · simp [compute_targets, constrained_next_values, exampleConfigClamped,
      exampleConfig, Bind.bind, Except.bind, clampQ]
  · norm_num

/-- C4 counterexample: in epoch 0 the bootstrap contribution is indeed zero,
but with the cost clamp configured to `[0, 1]` a non-terminal transition with
stored cost 5 gets `target_cost = 1 ≠ 5`, so its targets are not the raw
one-step reward and cost under every configuration. -/
theorem epoch0_cost_target_clamped_counterexample :
    compute_targets exampleConfigClamped exampleForward 0 [2] [5] [0] [0] [false]
      = Except.ok ([2], [1]) ∧ (1 : ℚ) ≠ 5 := by
  constructor
  · simp [compute_targets, constrained_next_values, exampleConfigClamped,
      exampleConfig, Bind.bind, Except.bind, clampQ]
  · norm_num

/-- C7 counterexample: an empty Python list is a malformed budget grid, yet
construction succeeds: `eval([])` raises `TypeError`, the handler of lines
21-28 falls back to the raw value, and the empty grid is stored unvalidated —
configuration content is accepted silently, to fail only later. -/
theorem empty_list_grid_accepted_counterexample :
    bftqInit (ConfVal.numList []) (ConfVal.numList [])
      = Except.ok (ConfVal.numList [], ConfVal.numList []) :=
  rfl

/-- C7 amended: construction fails fast only when a budget-grid *string* fails
to evaluate (the raised error is not a `TypeError` and escapes the handler);
a malformed non-string grid value, such as an empty list, is caught by the
`except TypeError` fallback and accepted silently at construction. -/
theorem init_fail_fast_amended (xs : List ℚ) :
    loadBetas (ConfVal.evalsTo none) = Except.error PyErr.parseError ∧
    loadBetas (ConfVal.numList xs) = Except.ok (ConfVal.numList xs) ∧
    bftqInit (ConfVal.evalsTo none) (ConfVal.numList xs)
      = Except.error PyErr.parseError ∧
    bftqInit (ConfVal.numList xs) (ConfVal.evalsTo none)
      = Except.error PyErr.parseError ∧
    bftqInit (ConfVal.numList xs) (ConfVal.numList xs)
      = Except.ok (ConfVal.numList xs, ConfVal.numList xs) :=
  ⟨rfl, rfl, rfl, rfl, rfl⟩

/-- Every entry of a zero vector is zero. -/
theorem getD_zero_of_replicate (n i : ℕ) : (List.replicate n (0:ℚ)).getD i 0 = 0 := by
  induction n generalizing i with
  | zero => simp
  | succ n ih => cases i <;> simp [List.replicate, ih]

/-- The masked scatter preserves the batch length. -/
theorem scatterNonTerminal_length (ts : List Bool) (vs : List ℚ) :
    (scatterNonTerminal ts vs).length = ts.length := by
  induction ts generalizing vs with
  | nil => simp [scatterNonTerminal]
  | cons t ts ih =>
    cases t <;> cases vs <;> simp [scatterNonTerminal, ih]

/-- The masked scatter leaves zero at every terminal position. -/
theorem scatterNonTerminal_getD_terminal (ts : List Bool) (vs : List ℚ) (i : ℕ)
    (h : ts.getD i false = true) : (scatterNonTerminal ts vs).getD i 0 = 0 := by
  induction ts generalizing vs i with
  | nil => simp at h
  | cons t ts ih =>
    cases i with
    | zero =>
      simp only [List.getD_cons_zero] at h
      subst h
      cases vs <;> simp [scatterNonTerminal]
    | succ i =>
      simp only [List.getD_cons_succ] at h
      cases t <;> cases vs <;>
        simp only [scatterNonTerminal, List.getD_cons_succ] <;>
        exact ih _ _ h

/-- Entry-wise view of `zipWith` at an in-range index. -/
theorem getD_zipWith_of_lt (f : ℚ → ℚ → ℚ) (xs ys : List ℚ) (i : ℕ)
    (hx : i < xs.length) (hy : i < ys.length) :
    (List.zipWith f xs ys).getD i 0 = f (xs.getD i 0) (ys.getD i 0) := by
  induction xs generalizing ys i with
  | nil => simp at hx
  | cons x xs ih =>
    cases ys with
    | nil => simp at hy
    | cons y ys =>
      cases i with
      | zero => simp
      | succ i =>
        simp only [List.zipWith_cons_cons, List.getD_cons_succ]
        exact ih ys i (by simpa using hx) (by simpa using hy)

/-- Entry-wise view of `map` at an in-range index. -/
theorem getD_map_of_lt (g : ℚ → ℚ) (xs : List ℚ) (i : ℕ) (h : i < xs.length) :
    (xs.map g).getD i 0 = g (xs.getD i 0) := by
  induction xs generalizing i with
  | nil => simp at h
  | cons x xs ih =>
    cases i with
    | zero => simp
    | succ i => simpa using ih i (by simpa using h)

/-- When `constrained_next_values` succeeds, the two bootstrap vectors have the
batch length and are zero at every terminal position (in epoch 0 they are zero
everywhere). -/
theorem cnv_ok_shape (cfg : BFTQConfig) (f : ℚ × ℚ → List ℚ) (epoch : ℕ)
    (ns betas : List ℚ) (ts : List Bool) (nr nc : List ℚ)
    (h : constrained_next_values cfg f epoch ns betas ts = Except.ok (nr, nc))
    (hts : ts.length = ns.length) :
    nr.length = ns.length ∧ nc.length = ns.length ∧
    ∀ i, ts.getD i false = true → nr.getD i 0 = 0 ∧ nc.getD i 0 = 0 := by
  unfold constrained_next_values at h
  by_cases he : epoch = 0
  · subst he
    simp only [reduceIte, Except.ok.injEq, Prod.mk.injEq] at h
    obtain ⟨h1, h2⟩ := h
    subst h1; subst h2
    exact ⟨by simp, by simp,
      fun i _ => ⟨getD_zero_of_replicate _ _, getD_zero_of_replicate _ _⟩⟩
  · simp only [he, reduceIte] at h
    cases hq : compute_next_values cfg f (selectNonTerminal ns ts) with
    | error e => simp [hq, Bind.bind, Except.bind] at h
    | ok qv =>
      simp only [hq, Bind.bind, Except.bind] at h
      cases hm : compute_all_optimal_mixtures
          ((compute_all_hulls cfg qv (selectNonTerminal ns ts).length).map PyObj.hullObj)
          ((selectNonTerminal betas ts).map PyObj.scalar) with
      | error e => simp [hm] at h
      | ok mx =>
        simp only [hm, Except.ok.injEq, Prod.mk.injEq] at h
        obtain ⟨h1, h2⟩ := h
        subst h1; subst h2
        exact ⟨by rw [scatterNonTerminal_length, hts],
               by rw [scatterNonTerminal_length, hts],
               fun i hi => ⟨scatterNonTerminal_getD_terminal _ _ _ hi,
                            scatterNonTerminal_getD_terminal _ _ _ hi⟩⟩

/-- C2 (amended): whenever `compute_targets` succeeds, every terminal
transition's `target_reward` equals the stored reward exactly and its
`target_cost` equals the stored cost passed through the optional clamp —
equal to the stored cost exactly only when no clamp is configured or the
cost already lies inside the clamp range; the bootstrap contribution is zero. -/
theorem compute_targets_terminal_amended (cfg : BFTQConfig) (f : ℚ × ℚ → List ℚ)
    (epoch : ℕ) (rewards costs ns betas : List ℚ) (ts : List Bool)
    (tr tc : List ℚ)
    (hok : compute_targets cfg f epoch rewards costs ns betas ts = Except.ok (tr, tc))
    (hlr : rewards.length = ns.length) (hlc : costs.length = ns.length)
    (hlt : ts.length = ns.length) (i : ℕ)
    (hterm : ts.getD i false = true) (hi : i < ns.length) :
    tr.getD i 0 = rewards.getD i 0 ∧
    tc.getD i 0 = applyClamp cfg.clamp_Qc (costs.getD i 0) := by
  unfold compute_targets at hok
  cases hN : constrained_next_values cfg f epoch ns betas ts with
  | error e => simp [hN, Bind.bind, Except.bind] at hok
  | ok nrc =>
    obtain ⟨nr, nc⟩ := nrc
    obtain ⟨hnr, hnc, hzero⟩ := cnv_ok_shape cfg f epoch ns betas ts nr nc hN hlt
    obtain ⟨hz1, hz2⟩ := hzero i hterm
    simp only [hN, Bind.bind, Except.bind, Except.ok.injEq, Prod.mk.injEq] at hok
    obtain ⟨htr, htc⟩ := hok
    constructor
    · rw [← htr, getD_zipWith_of_lt _ _ _ _ (hlr ▸ hi) (hnr ▸ hi), hz1]
      ring
    · cases hcl : cfg.clamp_Qc with
      | none =>
        rw [hcl] at htc
        rw [← htc, getD_zipWith_of_lt _ _ _ _ (hlc ▸ hi) (hnc ▸ hi), hz2,
          applyClamp]
        ring
      | some lohi =>
        obtain ⟨lo, hi'⟩ := lohi
        rw [hcl] at htc
        have hlen : i < (List.zipWith (fun c nc => c + cfg.gamma_c * nc) costs nc).length := by
          rw [List.length_zipWith]
          exact lt_min (hlc ▸ hi) (hnc ▸ hi)
        rw [← htc, getD_map_of_lt _ _ _ hlen,
          getD_zipWith_of_lt _ _ _ _ (hlc ▸ hi) (hnc ▸ hi), hz2, applyClamp]
        ring_nf

/-- Witness for C2 (amended) at a concrete clamped terminal transition. -/
theorem compute_targets_terminal_amended_witness :
    ([2] : List ℚ).getD 0 0 = ([2] : List ℚ).getD 0 0 ∧
    ([1] : List ℚ).getD 0 0
      = applyClamp exampleConfigClamped.clamp_Qc (([5] : List ℚ).getD 0 0) :=
  compute_targets_terminal_amended exampleConfigClamped exampleForward 0
    [2] [5] [0] [0] [true] [2] [1]
    (by simp [compute_targets, constrained_next_values, exampleConfigClamped,
          exampleConfig, Bind.bind, Except.bind, clampQ])
    rfl rfl rfl 0 rfl (by norm_num)

/-- Bootstrapping with a zero vector leaves the one-step values unchanged. -/
theorem zipWith_add_mul_replicate (γ : ℚ) :
    ∀ (xs : List ℚ) (n : ℕ), xs.length = n →
    List.zipWith (fun r x => r + γ * x) xs (List.replicate n 0) = xs := by
  intro xs
  induction xs with
  | nil => intro n _; simp
  | cons x xs ih =>
    intro n h
    cases n with
    | zero => simp at h
    | succ n =>
      simp only [List.replicate, List.zipWith_cons_cons, mul_zero, add_zero]
      rw [ih n (by simpa using h)]

/-- C4 (amended): during epoch 0 every transition's bootstrap contribution is
exactly zero regardless of the approximator's outputs — `constrained_next_values`
returns zero vectors — so `target_reward` is the raw one-step reward and
`target_cost` is the raw one-step cost passed through the optional clamp
(the raw cost exactly when no clamp is configured). -/
theorem epoch0_targets_amended (cfg : BFTQConfig) (f : ℚ × ℚ → List ℚ)
    (rewards costs ns betas : List ℚ) (ts : List Bool)
    (hlr : rewards.length = ns.length) (hlc : costs.length = ns.length) :
    constrained_next_values cfg f 0 ns betas ts
      = Except.ok (List.replicate ns.length 0, List.replicate ns.length 0) ∧
    compute_targets cfg f 0 rewards costs ns betas ts
      = Except.ok (rewards, costs.map (applyClamp cfg.clamp_Qc)) := by
  have hcnv : constrained_next_values cfg f 0 ns betas ts
      = Except.ok (List.replicate ns.length 0, List.replicate ns.length 0) := by
    unfold constrained_next_values
    simp
  refine ⟨hcnv, ?_⟩
  unfold compute_targets
  simp only [hcnv, Bind.bind, Except.bind]
  rw [zipWith_add_mul_replicate _ _ _ hlr, zipWith_add_mul_replicate _ _ _ hlc]
  cases hcl : cfg.clamp_Qc with
  | none =>
    have hid : applyClamp none = fun x : ℚ => x := by
      funext x
      rfl
    simp [hid]
  | some lohi =>
    obtain ⟨lo, hi⟩ := lohi
    simp [applyClamp]

/-- Witness for C4 (amended) at a concrete clamped epoch-0 batch. -/
theorem epoch0_targets_amended_witness :
    constrained_next_values exampleConfigClamped exampleForward 0 [0] [0] [false]
      = Except.ok (List.replicate 1 0, List.replicate 1 0) ∧
    compute_targets exampleConfigClamped exampleForward 0 [2] [5] [0] [0] [false]
      = Except.ok ([2], ([5] : List ℚ).map (applyClamp exampleConfigClamped.clamp_Qc)) :=
  epoch0_targets_amended exampleConfigClamped exampleForward [2] [5] [0] [0] [false] rfl rfl

/-- Full characterisation of the bounded epoch loop `runFrom`: the executed
epoch count never exceeds the fuel, the final state is the iterate of the
epoch step, no epoch before the stopping one has residual below the threshold,
a `true` break flag means the last executed epoch's residual was strictly below
the threshold, and a `false` flag means all fuel was used with no residual ever
below the threshold. -/
theorem runFrom_char (S : Type) (stop : ℚ) (step : S → S × ℚ) :
    ∀ (n : ℕ) (s0 : S),
    (runFrom stop step n s0).2.1 ≤ n ∧
    (runFrom stop step n s0).1 = (stepState step)^[(runFrom stop step n s0).2.1] s0 ∧
    (∀ j, j + 1 < (runFrom stop step n s0).2.1 → ¬ trajDelta step s0 j < stop) ∧
    ((runFrom stop step n s0).2.2 = true →
      0 < (runFrom stop step n s0).2.1 ∧
      trajDelta step s0 ((runFrom stop step n s0).2.1 - 1) < stop) ∧
    ((runFrom stop step n s0).2.2 = false →
      (runFrom stop step n s0).2.1 = n ∧ ∀ j, j < n → ¬ trajDelta step s0 j < stop) := by
  intro n
  induction n with
  | zero =>
    intro s0
    simp [runFrom]
  | succ n ih =>
    intro s0
    by_cases hd : (step s0).2 < stop
    · have hr : runFrom stop step (n + 1) s0 = ((step s0).1, 1, true) := by
        simp [runFrom, hd]
      rw [hr]
      dsimp only
      refine ⟨by omega, by simp [stepState], ?_, ?_, ?_⟩
      · intro j hj; omega
      · intro _
        exact ⟨by omega, by simpa [trajDelta] using hd⟩
      · intro hfalse; simp at hfalse
    · have hr : runFrom stop step (n + 1) s0 =
          ((runFrom stop step n (step s0).1).1,
           (runFrom stop step n (step s0).1).2.1 + 1,
           (runFrom stop step n (step s0).1).2.2) := by
        simp [runFrom, hd]
      obtain ⟨ih1, ih2, ih3, ih4, ih5⟩ := ih (step s0).1
      have hshift : ∀ j, trajDelta step s0 (j + 1) = trajDelta step (step s0).1 j := by
        intro j
        simp [trajDelta, stepState, Function.iterate_succ_apply]
      rw [hr]
      dsimp only
      refine ⟨by omega, ?_, ?_, ?_, ?_⟩
      · rw [Function.iterate_succ_apply]
        exact ih2
      · intro j hj
        cases j with
        | zero => simpa [trajDelta] using hd
        | succ j =>
          rw [hshift]
          exact ih3 j (by omega)
      · intro hb
        obtain ⟨hpos, hlt⟩ := ih4 hb
        refine ⟨by omega, ?_⟩
        have : (runFrom stop step n (step s0).1).2.1 + 1 - 1
            = ((runFrom stop step n (step s0).1).2.1 - 1) + 1 := by omega
        rw [this, hshift]
        exact hlt
      · intro hb
        obtain ⟨heq, hall⟩ := ih5 hb
        refine ⟨by omega, ?_⟩
        intro j hj
        cases j with
        | zero => simpa [trajDelta] using hd
        | succ j =>
          rw [hshift]
          exact hall j (by omega)

/-- C5: `run` executes at most `max_ftq_epochs` epochs and terminates; the
returned value is the value network of the state after the executed epochs;
it stops early exactly when an epoch's residual is strictly below
`delta_stop`: no earlier epoch is below the threshold, a break means the last
executed epoch was, and no break means all `max_ftq_epochs` epochs ran with
every residual at or above the threshold. -/
theorem run_epoch_bound_and_early_stop (S N : Type) (cfg : BFTQConfig)
    (step : S → S × ℚ) (net : S → N) (s0 : S) :
    (run cfg step net s0).2.1 ≤ cfg.max_ftq_epochs ∧
    (run cfg step net s0).1 = net ((stepState step)^[(run cfg step net s0).2.1] s0) ∧
    (∀ j, j + 1 < (run cfg step net s0).2.1 → ¬ trajDelta step s0 j < cfg.delta_stop) ∧
    ((run cfg step net s0).2.2 = true →
      0 < (run cfg step net s0).2.1 ∧
      trajDelta step s0 ((run cfg step net s0).2.1 - 1) < cfg.delta_stop) ∧
    ((run cfg step net s0).2.2 = false →
      (run cfg step net s0).2.1 = cfg.max_ftq_epochs ∧
      ∀ j, j < cfg.max_ftq_epochs → ¬ trajDelta step s0 j < cfg.delta_stop) := by
  obtain ⟨h1, h2, h3, h4, h5⟩ := runFrom_char S cfg.delta_stop step cfg.max_ftq_epochs s0
  unfold run
  dsimp only
  exact ⟨h1, by rw [h2], h3, h4, h5⟩

/-- Witness for C5: on a concrete trajectory the loop stops early, within the
epoch bound, with the stopping epoch's residual below the threshold. -/
theorem run_epoch_bound_and_early_stop_witness :
    (run exampleRunConfig exampleEpochStep id (0:ℚ)).2.1
        ≤ exampleRunConfig.max_ftq_epochs ∧
    0 < (run exampleRunConfig exampleEpochStep id (0:ℚ)).2.1 ∧
    trajDelta exampleEpochStep 0
        ((run exampleRunConfig exampleEpochStep id (0:ℚ)).2.1 - 1)
      < exampleRunConfig.delta_stop := by
  have h := run_epoch_bound_and_early_stop ℚ ℚ exampleRunConfig exampleEpochStep id 0
  have hb : (run exampleRunConfig exampleEpochStep id (0:ℚ)).2.2 = true := by
    norm_num [run, runFrom, exampleEpochStep, exampleRunConfig, exampleConfig]
  exact ⟨h.1, (h.2.2.2.1 hb).1, (h.2.2.2.1 hb).2⟩

/-- C6: the residual `_fit` returns is the weighted regression loss of the
fresh targets evaluated at the parameters as they stood on entry — before the
optional per-epoch reset and the gradient steps — and is therefore unaffected
by whichever optimizer update and reset are applied afterwards. -/
theorem fit_residual_precedes_updates (P : Type) (cfg : BFTQConfig)
    (lossR lossC : List ℚ → List ℚ → ℚ) (forward : P → ℚ × ℚ → List ℚ)
    (optStep resetFn : P → P) (θ : P) (sb : List (ℚ × ℚ)) (actions : List ℕ)
    (tr tc : List ℚ) :
    (_fit cfg lossR lossC forward optStep resetFn θ sb actions tr tc).2
      = _compute_loss cfg lossR lossC (forward θ) sb actions tr tc ∧
    ∀ (optStep' resetFn' : P → P),
      (_fit cfg lossR lossC forward optStep' resetFn' θ sb actions tr tc).2
        = (_fit cfg lossR lossC forward optStep resetFn θ sb actions tr tc).2 :=
  ⟨rfl, fun _ _ => rfl⟩

/-- `flatMap` over a mapped index list composes the functions. -/
theorem flatMap_map_comp {α β γ : Type} (l : List α) (g : α → β) (f : β → List γ) :
    (l.map g).flatMap f = l.flatMap (fun x => f (g x)) := by
  induction l with
  | nil => rfl
  | cons x xs ih => simp [ih]

/-- Prefix sums over a cons shift by the head size. -/
theorem sumTake_cons (k : ℕ) (rest : List ℕ) (m : ℕ) :
    sumTake (k :: rest) (m + 1) = k + sumTake rest m := by
  simp [sumTake, List.take]

/-- Slicing after a common offset is slicing the dropped list. -/
theorem pySlice_shift {α : Type} (xs : List α) (k a b : ℕ) :
    pySlice xs (k + a) (k + b) = pySlice (xs.drop k) a b := by
  unfold pySlice
  rw [List.drop_take, List.drop_take]
  congr 1
  · omega
  · rw [List.drop_drop]

/-- Concatenating the per-minibatch images of consecutive slices whose sizes
sum to the batch length reproduces the image of the whole batch. -/
theorem flatMap_slices {α β : Type} (f : α → β) :
    ∀ (sizes : List ℕ) (xs : List α), sizes.sum = xs.length →
    (List.range sizes.length).flatMap (fun m =>
      (pySlice xs (sumTake sizes m) (sumTake sizes (m + 1))).map f) = xs.map f := by
  intro sizes
  induction sizes with
  | nil =>
    intro xs h
    simp at h
    simp [List.length_eq_zero.mp h.symm]
  | cons k rest ih =>
    intro xs h
    simp only [List.length_cons, List.range_succ_eq_map, List.flatMap_cons,
      flatMap_map_comp]
    have h0 : pySlice xs (sumTake (k :: rest) 0) (sumTake (k :: rest) 1) = xs.take k := by
      simp [pySlice, sumTake, List.take]
    have hsucc : ∀ m, pySlice xs (sumTake (k :: rest) (m + 1)) (sumTake (k :: rest) (m + 1 + 1))
        = pySlice (xs.drop k) (sumTake rest m) (sumTake rest (m + 1)) := by
      intro m
      rw [sumTake_cons, sumTake_cons, pySlice_shift]
    have hrec : (List.range rest.length).flatMap (fun x =>
        (pySlice xs (sumTake (k :: rest) (Nat.succ x))
          (sumTake (k :: rest) (Nat.succ x + 1))).map f)
        = (xs.drop k).map f := by
      have : (fun x => (pySlice xs (sumTake (k :: rest) (Nat.succ x))
          (sumTake (k :: rest) (Nat.succ x + 1))).map f)
          = (fun x => (pySlice (xs.drop k) (sumTake rest x) (sumTake rest (x + 1))).map f) := by
        funext m
        rw [hsucc]
      rw [this]
      apply ih
      have hk : k ≤ xs.length := by
        simp only [List.sum_cons] at h
        omega
      simp only [List.length_drop]
      simp only [List.sum_cons] at h
      omega
    rw [h0, hrec, ← List.map_append, List.take_append_drop]

/-- With a positive bin count, `near_split` succeeds with exactly that many
bin sizes summing to the input length. -/
theorem near_split_spec (x b : ℕ) (h : 0 < b) :
    ∃ sizes, near_split x b = Except.ok sizes ∧ sizes.length = b ∧ sizes.sum = x := by
  refine ⟨List.replicate (x % b) (x / b + 1) ++ List.replicate (b - x % b) (x / b),
    by simp [near_split, Nat.pos_iff_ne_zero.mp h], ?_, ?_⟩
  · have hrb : x % b < b := Nat.mod_lt _ h
    simp only [List.length_append, List.length_replicate]
    omega
  · have hrb : x % b ≤ b := le_of_lt (Nat.mod_lt _ h)
    have hmd : x % b + b * (x / b) = x := Nat.mod_add_div x b
    simp only [List.sum_append, List.sum_replicate, smul_eq_mul]
    have h1 : x % b * (x / b) ≤ b * (x / b) := Nat.mul_le_mul_right _ hrb
    rw [Nat.mul_succ, Nat.sub_mul]
    generalize hA : x % b * (x / b) = A at *
    generalize hB : b * (x / b) = B at *
    omega

/-- C8: for every batch of next states and every positive configured minibatch
count, the concatenation of the per-minibatch forward evaluations computed by
`compute_next_values` equals a single forward evaluation of the whole ordered
cross-product batch: the minibatch split does not affect the resulting
ordered tensor of Q-values. -/
theorem compute_next_values_minibatch_equiv (cfg : BFTQConfig)
    (f : ℚ × ℚ → List ℚ) (next_states : List ℚ)
    (h : 0 < cfg.split_batches) :
    compute_next_values cfg f next_states
      = Except.ok ((crossStateBeta cfg.betas_for_discretisation next_states).map f) := by
  obtain ⟨sizes, hok, hlen, hsum⟩ := near_split_spec
    (crossStateBeta cfg.betas_for_discretisation next_states).length cfg.split_batches h
  unfold compute_next_values
  simp only [hok, Bind.bind, Except.bind, Except.ok.injEq]
  rw [← hlen]
  exact flatMap_slices f sizes _ hsum

/-- Witness for C8 with three minibatches over a two-state batch. -/
theorem compute_next_values_minibatch_equiv_witness :
    0 < exampleSplitConfig.split_batches ∧
    compute_next_values exampleSplitConfig exampleForward [1, 2]
      = Except.ok ((crossStateBeta exampleSplitConfig.betas_for_discretisation
          [1, 2]).map exampleForward) :=
  ⟨by decide,
   compute_next_values_minibatch_equiv exampleSplitConfig exampleForward [1, 2]
     (by decide)⟩

/-- C9: the target-computation phase of an epoch leaves the approximator's
learned parameters unchanged (it only refreshes the normalization statistics
and reads the parameters for forward evaluation), and the fit phase changes
parameters exactly through the optional reset followed by `max_nn_epoch`
optimizer updates. -/
theorem target_phase_params_frame (P N : Type) (cfg : BFTQConfig)
    (stats : List (ℚ × ℚ) → N) (forward : P → N → ℚ × ℚ → List ℚ) (epoch : ℕ)
    (s : NetState P N) (sb : List (ℚ × ℚ)) (rewards costs ns betas : List ℚ)
    (ts : List Bool) (out : NetState P N × (List ℚ × List ℚ))
    (lossR lossC : List ℚ → List ℚ → ℚ) (optStep resetFn : P → P) (θ : P)
    (actions : List ℕ) (tr tc : List ℚ)
    (hok : epochTargetsPhase cfg stats forward epoch s sb rewards costs ns betas ts
      = Except.ok out) :
    out.1.params = s.params ∧
    (_fit cfg lossR lossC (fun p => forward p s.normalization) optStep resetFn θ
        sb actions tr tc).1
      = optStep^[cfg.max_nn_epoch]
          (if cfg.reset_network_each_epoch then resetFn θ else θ) := by
  refine ⟨?_, rfl⟩
  unfold epochTargetsPhase at hok
  cases hT : compute_targets cfg
      (forward ({ s with normalization := stats sb } : NetState P N).params
        ({ s with normalization := stats sb } : NetState P N).normalization)
      epoch rewards costs ns betas ts with
  | error e => simp [hT, Bind.bind, Except.bind] at hok
  | ok t =>
    simp only [hT, Bind.bind, Except.bind, Except.ok.injEq] at hok
    rw [← hok]

/-- Witness for C9 on a concrete epoch-0 batch and concrete optimizer. -/
theorem target_phase_params_frame_witness :
    exampleOut.1.params = exampleNetState.params ∧
    (_fit exampleConfig exampleLoss exampleLoss
        (fun p => exampleNetForward p exampleNetState.normalization)
        exampleOptStep exampleReset 3 [] [] [2] [5]).1
      = exampleOptStep^[exampleConfig.max_nn_epoch]
          (if exampleConfig.reset_network_each_epoch then exampleReset 3 else 3) :=
  target_phase_params_frame ℚ Unit exampleConfig exampleStats exampleNetForward 0
    exampleNetState [] [2] [5] [0] [0] [true] exampleOut exampleLoss exampleLoss
    exampleOptStep exampleReset 3 [] [2] [5]
    (by simp [epochTargetsPhase, compute_targets, constrained_next_values,
          exampleStats, exampleNetForward, exampleNetState, exampleOut,
          exampleConfig, Bind.bind, Except.bind])

/-- C10: with a non-empty duplication list, `push` stores exactly one
transition per multiplier; a missing (`None`) or zero supplied budget — both
falsy in Python — makes the stored budgets the raw multipliers, while any
non-zero supplied budget makes them `multiplier * budget`. -/
theorem push_duplication_budgets (cfg : BFTQConfig) (mem : List StoredTransition)
    (s : ℚ) (a : ℕ) (r ns : ℚ) (t : Bool) (c : ℚ) (beta : Option ℚ)
    (h : cfg.betas_for_duplication ≠ []) :
    (push cfg mem s a r ns t c beta).length
      = mem.length + cfg.betas_for_duplication.length ∧
    (beta = none ∨ beta = some 0 →
      ((push cfg mem s a r ns t c beta).drop mem.length).map StoredTransition.beta
        = cfg.betas_for_duplication.map some) ∧
    (∀ b : ℚ, beta = some b → b ≠ 0 →
      ((push cfg mem s a r ns t c beta).drop mem.length).map StoredTransition.beta
        = cfg.betas_for_duplication.map (fun bd => some (bd * b))) := by
  unfold push
  rw [if_pos h]
  refine ⟨by simp, ?_, ?_⟩
  · intro hb
    rw [List.drop_left, List.map_map]
    rcases hb with hb | hb <;> subst hb <;> simp [betaTruthy]
  · intro b hb hbne
    subst hb
    rw [List.drop_left, List.map_map]
    simp [betaTruthy, hbne]

/-- Witness for C10 with multipliers `[1/4, 1/2]` and supplied budget `2`. -/
theorem push_duplication_budgets_witness :
    (push exampleDupConfig [] 1 0 2 3 false 4 (some 2)).length
      = ([] : List StoredTransition).length
        + exampleDupConfig.betas_for_duplication.length ∧
    ((push exampleDupConfig [] 1 0 2 3 false 4 (some 2)).drop
        ([] : List StoredTransition).length).map StoredTransition.beta
      = exampleDupConfig.betas_for_duplication.map (fun bd => some (bd * 2)) :=
  have h := push_duplication_budgets exampleDupConfig [] 1 0 2 3 false 4 (some 2)
    (by decide)
  ⟨h.1, h.2.2 2 rfl (by norm_num)⟩

/-- Witness for C6 at a concrete fit instance. -/
theorem fit_residual_precedes_updates_witness :
    (_fit exampleConfig exampleLoss exampleLoss exampleForwardParam exampleOptStep
        exampleReset 3 [] [] [2] [5]).2
      = _compute_loss exampleConfig exampleLoss exampleLoss (exampleForwardParam 3)
          [] [] [2] [5] ∧
    (_fit exampleConfig exampleLoss exampleLoss exampleForwardParam exampleReset
        exampleOptStep 3 [] [] [2] [5]).2
      = (_fit exampleConfig exampleLoss exampleLoss exampleForwardParam exampleOptStep
          exampleReset 3 [] [] [2] [5]).2 :=
  have h := fit_residual_precedes_updates ℚ exampleConfig exampleLoss exampleLoss
    exampleForwardParam exampleOptStep exampleReset 3 [] [] [2] [5]
  ⟨h.1, h.2 exampleReset exampleOptStep⟩

/-- Witness for C7 (amended) at a concrete one-element grid. -/
theorem init_fail_fast_amended_witness :
    loadBetas (ConfVal.evalsTo none) = Except.error PyErr.parseError ∧
    loadBetas (ConfVal.numList [1]) = Except.ok (ConfVal.numList [1]) ∧
    bftqInit (ConfVal.evalsTo none) (ConfVal.numList [1])
      = Except.error PyErr.parseError ∧
    bftqInit (ConfVal.numList [1]) (ConfVal.evalsTo none)
      = Except.error PyErr.parseError ∧
    bftqInit (ConfVal.numList [1]) (ConfVal.numList [1])
      = Except.ok (ConfVal.numList [1], ConfVal.numList [1]) :=
  init_fail_fast_amended [1]
